import Mathlib

/-!
Shallow embedding of the `jajajvm` class-file interpreter (src/src/main.rs).

Machine integers are modelled as `Int`/`Nat` with explicit wrapping:
`i32` values are `Int` kept in `[-2^31, 2^31)` via `wrap32`, `i16`/`i8`
immediates are decoded with `wrap16`/`wrap8`, and the Rust cast
`x as usize` of an `i16` is `usizeOfI16` (sign-extension into a 64-bit
unsigned, matching release-mode Rust where integer arithmetic wraps).

Rust panics (out-of-bounds indexing, `usize` underflow followed by an
out-of-bounds access, `unwrap`, explicit `panic!`) are modelled as the
`fatal` outcome / `none`.
-/

namespace Jvm

/-- Two-complement wrap of an `Int` into the signed 8-bit range, used for
`i8::from_be_bytes` (src/src/main.rs:631,637). -/
def wrap8 (x : Int) : Int := (x + 128) % 256 - 128

/-- Two-complement wrap of an `Int` into the signed 16-bit range, used for
`i16::from_be_bytes` and wrapping `i16` arithmetic. -/
def wrap16 (x : Int) : Int := (x + 32768) % 65536 - 32768

/-- Two-complement wrap of an `Int` into the signed 32-bit range, used for
the `wrapping_*` operations on `i32`. -/
def wrap32 (x : Int) : Int := (x + 2147483648) % 4294967296 - 2147483648

/-- The Rust cast `(x : i16) as usize` (64-bit target): sign-extend and
reinterpret, i.e. reduce modulo `2^64` into `[0, 2^64)`. -/
def usizeOfI16 (x : Int) : Nat := (x % 18446744073709551616).toNat

/-- `i16::from_be_bytes([b1, b2])` on two bytes (each in `[0,256)`). -/
def i16_of_bytes (b1 b2 : Nat) : Int := wrap16 (256 * b1 + b2)

/-- `i8::from_be_bytes([b])` on one byte. -/
def i8_of_byte (b : Nat) : Int := wrap8 b

/-- The reading the spec calls "interpreted signed", applied to a residue in `[0, 2^32)`. -/
def asSigned32 (r : Int) : Int := if r < 2147483648 then r else r - 4294967296

/-- `enum ConstantPool` (src/src/main.rs:42-58). The `Integer` payload is the
parsed `i32`, an `Int` in `[-2^31, 2^31)`. Pool indices are `u16`, kept as
`Nat`. -/
inductive ConstantPool where
  | Utf8 (s : String)
  | Integer (bytes : Int)
  | Class (starting_index : Nat)
  | MethodOrFieldRef (class_index : Nat) (name_and_type_index : Nat)
  | NameAndType (name_index : Nat) (descriptor_index : Nat)
  deriving DecidableEq

/-- `struct Code` (src/src/main.rs:29-34). The parser guarantees
`code.len() == code_length` (it allocates `vec![0; code_length]` and fills
it), so the separate `code_length` field is represented by `code.length`. -/
structure Code where
  max_stack : Nat
  max_locals : Nat
  code : List Nat
  deriving DecidableEq

/-- `struct Method` (src/src/main.rs:36-40). -/
structure Method where
  name : String
  descriptor : String
  code : Code
  deriving DecidableEq

/-- `struct ClassFile` (src/src/main.rs:60-63). -/
structure ClassFile where
  constant_pool : List ConstantPool
  method : List Method
  deriving DecidableEq

/-- `get_constant` (src/src/main.rs:129-131): `&constant_pool[index - 1]`
with 1-based `index`. `index = 0` underflows the `usize` subtraction and the
resulting huge index panics, as does `index - 1 >= len`; both are `none`. -/
def get_constant (cp : List ConstantPool) (index : Nat) : Option ConstantPool :=
  if index = 0 then none else cp.get? (index - 1)

/-- `find_method` (src/src/main.rs:144-152): first method whose name and
descriptor both match; panic (`none`) if absent. -/
def find_method (name desc : String) (methods : List Method) : Option Method :=
  methods.find? (fun mth => mth.name == name && mth.descriptor == desc)

/-- `get_method_name_and_type` (src/src/main.rs:174-192): resolve a
`MethodOrFieldRef` at `index` to the `(name_index, descriptor_index)` of its
`NameAndType`; any shape mismatch panics (`none`). -/
def get_method_name_and_type (cp : List ConstantPool) (index : Nat) : Option (Nat × Nat) :=
  match get_constant cp index with
  | some (ConstantPool.MethodOrFieldRef _ name_and_type_index) =>
    match get_constant cp name_and_type_index with
    | some (ConstantPool.NameAndType name_index descriptor_index) =>
      some (name_index, descriptor_index)
    | _ => none
  | _ => none

/-- `find_method_from_index` (src/src/main.rs:161-172): Ref → NameAndType →
two Utf8 strings → `find_method`. -/
def find_method_from_index (index : Nat) (cls : ClassFile) : Option Method :=
  match get_method_name_and_type cls.constant_pool index with
  | none => none
  | some (ni, di) =>
    match get_constant cls.constant_pool ni with
    | some (ConstantPool.Utf8 n) =>
      match get_constant cls.constant_pool di with
      | some (ConstantPool.Utf8 d) => find_method n d cls.method
      | _ => none
    | _ => none

/-- The `<init>`/static check of `get_methods` (src/src/main.rs:329-331): the
parser panics `"Only static methods are supported by this VM."` exactly when
`name == "<init>" && (access_flags & 0x0008) > 0`. -/
def initStaticCheckPanics (name : String) (access_flags : Nat) : Bool :=
  name == "<init>" && decide (0 < Nat.land access_flags 8)

/-- The mutable state of one `execute` frame (src/src/main.rs:382-389):
`locals`, the fixed-size operand stack `op_stack` (length `max_stack`),
the top-of-stack counter `op_count`, and the byte offset `pc`. -/
structure VMState where
  locals : List Int
  op_stack : List Int
  op_count : Nat
  pc : Nat
  deriving DecidableEq

/-- A read `v[opc - k]` of a Rust `Vec` (`k ≥ 1`): `usize` underflow
(`opc < k`) wraps to a huge index and panics, and an in-range subtraction
still panics when the index is out of bounds; both are `none`. -/
def stkRead (st : List Int) (opc k : Nat) : Option Int :=
  if k ≤ opc then st.get? (opc - k) else none

/-- A write `v[j] = x` of a Rust `Vec`: panics (`none`) when `j` is out of
bounds, else returns the updated vector. -/
def stkWrite (st : List Int) (j : Nat) (x : Int) : Option (List Int) :=
  if j < st.length then some (st.set j x) else none

/-- Outcome of executing one instruction: a successor state, an (optional)
returned value terminating the frame, a pending `invokestatic` with its
decoded pool index, or a panic. -/
inductive StepRes where
  | next (s : VMState)
  | ret (v : Option Int)
  | invoke (index : Nat)
  | fatal
  deriving DecidableEq

/-- A push `op_stack[op_count] = v; op_count += 1` followed by setting
`pc := npc`. -/
def pushv (s : VMState) (v : Int) (npc : Nat) : StepRes :=
  match stkWrite s.op_stack s.op_count v with
  | some st => StepRes.next { s with op_stack := st, op_count := s.op_count + 1, pc := npc }
  | none => StepRes.fatal

/-- The shared tail of every conditional-branch arm
(src/src/main.rs:424-572): `pc += 3`, then if the condition holds
`pc = (pc as i16 + res - 3) as usize` (each `i16` operation wrapping), and
finally `op_count -= npop`. -/
def if_branch (s : VMState) (param1 param2 : Nat) (taken : Bool) (npop : Nat) : VMState :=
  let pc3 := s.pc + 3
  let pcN :=
    if taken then
      usizeOfI16 (wrap16 (wrap16 (wrap16 (pc3 : Int) + i16_of_bytes param1 param2) - 3))
    else pc3
  { s with pc := pcN, op_count := s.op_count - npop }

/-- One iteration of the dispatch `match` of `execute`
(src/src/main.rs:391-719), for a state whose `pc` indexes into the code.
`invokestatic` is returned as `StepRes.invoke` and completed by `run` below,
since it recursively executes the callee. -/
def step (cls : ClassFile) (m : Method) (s : VMState) : StepRes :=
  match m.code.code.get? s.pc with
  | none => StepRes.fatal
  | some current =>
    match current with
    | 172 =>
      match stkRead s.op_stack s.op_count 1 with
      | some v => StepRes.ret (some v)
      | none => StepRes.fatal
    | 177 => StepRes.ret none
    | 184 =>
      match m.code.code.get? (s.pc + 1), m.code.code.get? (s.pc + 2) with
      | some param1, some param2 => StepRes.invoke (256 * param1 + param2)
      | _, _ => StepRes.fatal
    | 153 =>
      match m.code.code.get? (s.pc + 1), m.code.code.get? (s.pc + 2),
            stkRead s.op_stack s.op_count 1 with
      | some p1, some p2, some conditional =>
        StepRes.next (if_branch s p1 p2 (decide (conditional = 0)) 1)
      | _, _, _ => StepRes.fatal
    | 154 =>
      match m.code.code.get? (s.pc + 1), m.code.code.get? (s.pc + 2),
            stkRead s.op_stack s.op_count 1 with
      | some p1, some p2, some conditional =>
        StepRes.next (if_branch s p1 p2 (decide (conditional ≠ 0)) 1)
      | _, _, _ => StepRes.fatal
    | 155 =>
      match m.code.code.get? (s.pc + 1), m.code.code.get? (s.pc + 2),
            stkRead s.op_stack s.op_count 1 with
      | some p1, some p2, some conditional =>
        StepRes.next (if_branch s p1 p2 (decide (conditional < 0)) 1)
      | _, _, _ => StepRes.fatal
    | 156 =>
      match m.code.code.get? (s.pc + 1), m.code.code.get? (s.pc + 2),
            stkRead s.op_stack s.op_count 1 with
      | some p1, some p2, some conditional =>
        StepRes.next (if_branch s p1 p2 (decide (0 ≤ conditional)) 1)
      | _, _, _ => StepRes.fatal
    | 157 =>
      match m.code.code.get? (s.pc + 1), m.code.code.get? (s.pc + 2),
            stkRead s.op_stack s.op_count 1 with
      | some p1, some p2, some conditional =>
        StepRes.next (if_branch s p1 p2 (decide (0 < conditional)) 1)
      | _, _, _ => StepRes.fatal
    | 158 =>
      match m.code.code.get? (s.pc + 1), m.code.code.get? (s.pc + 2),
            stkRead s.op_stack s.op_count 1 with
      | some p1, some p2, some conditional =>
        StepRes.next (if_branch s p1 p2 (decide (conditional ≤ 0)) 1)
      | _, _, _ => StepRes.fatal
    | 159 =>
      match m.code.code.get? (s.pc + 1), m.code.code.get? (s.pc + 2),
            stkRead s.op_stack s.op_count 1, stkRead s.op_stack s.op_count 2 with
      | some p1, some p2, some op1, some op2 =>
        StepRes.next (if_branch s p1 p2 (decide (op1 = op2)) 2)
      | _, _, _, _ => StepRes.fatal
    | 160 =>
      match m.code.code.get? (s.pc + 1), m.code.code.get? (s.pc + 2),
            stkRead s.op_stack s.op_count 1, stkRead s.op_stack s.op_count 2 with
      | some p1, some p2, some op1, some op2 =>
        StepRes.next (if_branch s p1 p2 (decide (op1 ≠ op2)) 2)
      | _, _, _, _ => StepRes.fatal
    | 161 =>
      match m.code.code.get? (s.pc + 1), m.code.code.get? (s.pc + 2),
            stkRead s.op_stack s.op_count 1, stkRead s.op_stack s.op_count 2 with
      | some p1, some p2, some op1, some op2 =>
        StepRes.next (if_branch s p1 p2 (decide (op2 < op1)) 2)
      | _, _, _, _ => StepRes.fatal
    | 162 =>
      match m.code.code.get? (s.pc + 1), m.code.code.get? (s.pc + 2),
            stkRead s.op_stack s.op_count 1, stkRead s.op_stack s.op_count 2 with
      | some p1, some p2, some op1, some op2 =>
        StepRes.next (if_branch s p1 p2 (decide (op1 ≤ op2)) 2)
      | _, _, _, _ => StepRes.fatal
    | 163 =>
      match m.code.code.get? (s.pc + 1), m.code.code.get? (s.pc + 2),
            stkRead s.op_stack s.op_count 1, stkRead s.op_stack s.op_count 2 with
      | some p1, some p2, some op1, some op2 =>
        StepRes.next (if_branch s p1 p2 (decide (op1 < op2)) 2)
      | _, _, _, _ => StepRes.fatal
    | 164 =>
      match m.code.code.get? (s.pc + 1), m.code.code.get? (s.pc + 2),
            stkRead s.op_stack s.op_count 1, stkRead s.op_stack s.op_count 2 with
      | some p1, some p2, some op1, some op2 =>
        StepRes.next (if_branch s p1 p2 (decide (op2 ≤ op1)) 2)
      | _, _, _, _ => StepRes.fatal
    | 167 =>
      match m.code.code.get? (s.pc + 1), m.code.code.get? (s.pc + 2) with
      | some p1, some p2 =>
        StepRes.next
          { s with pc := usizeOfI16 (wrap16 (wrap16 (s.pc : Int) + i16_of_bytes p1 p2)) }
      | _, _ => StepRes.fatal
    | 18 =>
      match m.code.code.get? (s.pc + 1) with
      | some param =>
        match get_constant cls.constant_pool param with
        | some (ConstantPool.Integer bytes) => pushv s bytes (s.pc + 2)
        | _ => StepRes.fatal
      | none => StepRes.fatal
    | 26 => match s.locals.get? 0 with
      | some loaded => pushv s loaded (s.pc + 1)
      | none => StepRes.fatal
    | 27 => match s.locals.get? 1 with
      | some loaded => pushv s loaded (s.pc + 1)
      | none => StepRes.fatal
    | 28 => match s.locals.get? 2 with
      | some loaded => pushv s loaded (s.pc + 1)
      | none => StepRes.fatal
    | 29 => match s.locals.get? 3 with
      | some loaded => pushv s loaded (s.pc + 1)
      | none => StepRes.fatal
    | 21 =>
      match m.code.code.get? (s.pc + 1) with
      | some param =>
        match s.locals.get? param with
        | some loaded => pushv s loaded (s.pc + 2)
        | none => StepRes.fatal
      | none => StepRes.fatal
    | 54 =>
      match m.code.code.get? (s.pc + 1), stkRead s.op_stack s.op_count 1 with
      | some param, some stored =>
        match stkWrite s.locals param stored with
        | some lo =>
          StepRes.next { s with locals := lo, op_count := s.op_count - 1, pc := s.pc + 2 }
        | none => StepRes.fatal
      | _, _ => StepRes.fatal
    | 59 =>
      match stkRead s.op_stack s.op_count 1 with
      | some stored =>
        match stkWrite s.locals 0 stored with
        | some lo =>
          StepRes.next { s with locals := lo, op_count := s.op_count - 1, pc := s.pc + 1 }
        | none => StepRes.fatal
      | none => StepRes.fatal
    | 60 =>
      match stkRead s.op_stack s.op_count 1 with
      | some stored =>
        match stkWrite s.locals 1 stored with
        | some lo =>
          StepRes.next { s with locals := lo, op_count := s.op_count - 1, pc := s.pc + 1 }
        | none => StepRes.fatal
      | none => StepRes.fatal
    | 61 =>
      match stkRead s.op_stack s.op_count 1 with
      | some stored =>
        match stkWrite s.locals 2 stored with
        | some lo =>
          StepRes.next { s with locals := lo, op_count := s.op_count - 1, pc := s.pc + 1 }
        | none => StepRes.fatal
      | none => StepRes.fatal
    | 62 =>
      match stkRead s.op_stack s.op_count 1 with
      | some stored =>
        match stkWrite s.locals 3 stored with
        | some lo =>
          StepRes.next { s with locals := lo, op_count := s.op_count - 1, pc := s.pc + 1 }
        | none => StepRes.fatal
      | none => StepRes.fatal
    | 132 =>
      match m.code.code.get? (s.pc + 1), m.code.code.get? (s.pc + 2) with
      | some i, some bb =>
        match s.locals.get? i with
        | some old =>
          match stkWrite s.locals i (wrap32 (old + i8_of_byte bb)) with
          | some lo => StepRes.next { s with locals := lo, pc := s.pc + 3 }
          | none => StepRes.fatal
        | none => StepRes.fatal
      | _, _ => StepRes.fatal
    | 16 =>
      match m.code.code.get? (s.pc + 1) with
      | some param => pushv s (i8_of_byte param) (s.pc + 2)
      | none => StepRes.fatal
    | 96 =>
      match stkRead s.op_stack s.op_count 1, stkRead s.op_stack s.op_count 2 with
      | some op1, some op2 =>
        match stkWrite s.op_stack (s.op_count - 2) (wrap32 (op1 + op2)) with
        | some st =>
          StepRes.next { s with op_stack := st, op_count := s.op_count - 1, pc := s.pc + 1 }
        | none => StepRes.fatal
      | _, _ => StepRes.fatal
    | 100 =>
      match stkRead s.op_stack s.op_count 1, stkRead s.op_stack s.op_count 2 with
      | some op1, some op2 =>
        match stkWrite s.op_stack (s.op_count - 2) (wrap32 (op2 - op1)) with
        | some st =>
          StepRes.next { s with op_stack := st, op_count := s.op_count - 1, pc := s.pc + 1 }
        | none => StepRes.fatal
      | _, _ => StepRes.fatal
    | 104 =>
      match stkRead s.op_stack s.op_count 1, stkRead s.op_stack s.op_count 2 with
      | some op1, some op2 =>
        match stkWrite s.op_stack (s.op_count - 2) (wrap32 (op2 * op1)) with
        | some st =>
          StepRes.next { s with op_stack := st, op_count := s.op_count - 1, pc := s.pc + 1 }
        | none => StepRes.fatal
      | _, _ => StepRes.fatal
    | 108 =>
      match stkRead s.op_stack s.op_count 1, stkRead s.op_stack s.op_count 2 with
      | some op1, some op2 =>
        if op1 = 0 then StepRes.fatal
        else
          match stkWrite s.op_stack (s.op_count - 2) (wrap32 (Int.tdiv op2 op1)) with
          | some st =>
            StepRes.next { s with op_stack := st, op_count := s.op_count - 1, pc := s.pc + 1 }
          | none => StepRes.fatal
      | _, _ => StepRes.fatal
    | 112 =>
      match stkRead s.op_stack s.op_count 1, stkRead s.op_stack s.op_count 2 with
      | some op1, some op2 =>
        if op1 = 0 then StepRes.fatal
        else
          match stkWrite s.op_stack (s.op_count - 2) (wrap32 (Int.tmod op2 op1)) with
          | some st =>
            StepRes.next { s with op_stack := st, op_count := s.op_count - 1, pc := s.pc + 1 }
          | none => StepRes.fatal
      | _, _ => StepRes.fatal
    | 116 =>
      match stkRead s.op_stack s.op_count 1 with
      | some op1 =>
        match stkWrite s.op_stack (s.op_count - 1) (wrap32 (op1 * (-1))) with
        | some st => StepRes.next { s with op_stack := st, pc := s.pc + 1 }
        | none => StepRes.fatal
      | none => StepRes.fatal
    | 178 => StepRes.next { s with pc := s.pc + 3 }
    | 182 =>
      match stkRead s.op_stack s.op_count 1 with
      | some _ => StepRes.next { s with op_count := s.op_count - 1, pc := s.pc + 3 }
      | none => StepRes.fatal
    | 2 => pushv s ((2 : Int) - 3) (s.pc + 1)
    | 3 => pushv s ((3 : Int) - 3) (s.pc + 1)
    | 4 => pushv s ((4 : Int) - 3) (s.pc + 1)
    | 5 => pushv s ((5 : Int) - 3) (s.pc + 1)
    | 6 => pushv s ((6 : Int) - 3) (s.pc + 1)
    | 7 => pushv s ((7 : Int) - 3) (s.pc + 1)
    | 8 => pushv s ((8 : Int) - 3) (s.pc + 1)
    | 17 =>
      match m.code.code.get? (s.pc + 1), m.code.code.get? (s.pc + 2) with
      | some p1, some p2 => pushv s (i16_of_bytes p1 p2) (s.pc + 3)
      | _, _ => StepRes.fatal
    | _ => StepRes.fatal

/-- The parameter-popping loop of the `invokestatic` arm
(src/src/main.rs:410-413): `for i in (0..num_params).rev()` do
`own_locals[i] = op_stack[op_count - 1]; op_count -= 1`. The first argument
of the recursion is the number of iterations still to run (`i + 1`); `own`
is the callee locals vector being filled. Returns the filled locals and the
decremented `op_count`, or `none` on any panicking index. -/
def popLoop (st : List Int) : Nat → Nat → List Int → Option (List Int × Nat)
  | 0, opc, own => some (own, opc)
  | i + 1, opc, own =>
    match stkRead st opc 1 with
    | none => none
    | some v =>
      match stkWrite own i v with
      | none => none
      | some own2 => popLoop st i (opc - 1) own2

/-- The `invokestatic` arm of `execute` (src/src/main.rs:401-422), with the
recursive `execute` call abstracted as `exec`: resolve the method, compute
`num_params = descriptor.len() - 3`, pop the parameters into fresh zeroed
callee locals, run the callee, push its value if it returned one, and
advance `pc` by 3. A descriptor shorter than 3 makes the `usize`
subtraction underflow; the resulting huge `num_params` always panics inside
the pop loop, so it is `none` here. -/
def doInvoke (cls : ClassFile) (exec : Method → List Int → Option (Option Int))
    (s : VMState) (index : Nat) : Option VMState :=
  match find_method_from_index index cls with
  | none => none
  | some own_method =>
    if own_method.descriptor.length < 3 then none
    else
      let num_params := own_method.descriptor.length - 3
      match popLoop s.op_stack num_params s.op_count
          (List.replicate own_method.code.max_locals 0) with
      | none => none
      | some (own_locals, opc2) =>
        match exec own_method own_locals with
        | none => none
        | some (some res) =>
          match stkWrite s.op_stack opc2 res with
          | none => none
          | some st =>
            some { s with op_stack := st, op_count := opc2 + 1, pc := s.pc + 3 }
        | some none => some { s with op_count := opc2, pc := s.pc + 3 }

/-- Frame setup of `execute` (src/src/main.rs:384-388): an operand stack of
`max_stack` zeros, `op_count = 0`, `pc = 0`, and the caller-supplied
locals. -/
def initState (m : Method) (locals : List Int) : VMState :=
  { locals := locals, op_stack := List.replicate m.code.max_stack 0, op_count := 0, pc := 0 }

/-- The dispatch loop of `execute` (src/src/main.rs:391-722), made total
with a fuel parameter: `none` is a panic or fuel exhaustion,
`some (some v)` an `ireturn`, `some none` a `return` or running off the end
of the code (src/src/main.rs:722 returns `None`). -/
def run (cls : ClassFile) : Nat → Method → VMState → Option (Option Int)
  | 0, _, _ => none
  | fuel + 1, m, s =>
    if s.pc < m.code.code.length then
      match step cls m s with
      | StepRes.fatal => none
      | StepRes.ret v => some v
      | StepRes.next s2 => run cls fuel m s2
      | StepRes.invoke index =>
        match doInvoke cls (fun mm ll => run cls fuel mm (initState mm ll)) s index with
        | none => none
        | some s2 => run cls fuel m s2
    else some none

/-- `execute` (src/src/main.rs:382): run a method on a fresh frame. -/
def execute (cls : ClassFile) (fuel : Nat) (m : Method) (locals : List Int) :
    Option (Option Int) :=
  run cls fuel m (initState m locals)

/-- The states an invocation of `m` can pass through: the initial frame, any
`step` successor, and any state produced by the full `invokestatic`
handling (`doInvoke`, with the callee execution abstracted by an arbitrary
`exec`). -/
inductive Reachable (cls : ClassFile) (m : Method) (locals0 : List Int) : VMState → Prop
  | init : Reachable cls m locals0 (initState m locals0)
  | next (s s' : VMState) : Reachable cls m locals0 s → s.pc < m.code.code.length →
      step cls m s = StepRes.next s' → Reachable cls m locals0 s'
  | invoke (s s' : VMState) (index : Nat)
      (exec : Method → List Int → Option (Option Int)) :
      Reachable cls m locals0 s → s.pc < m.code.code.length →
      step cls m s = StepRes.invoke index → doInvoke cls exec s index = some s' →
      Reachable cls m locals0 s'

/-- The branch-taken condition of the six zero-comparison opcodes, written in
the direction of the spec: the popped value compared against 0. -/
def zeroCmpTaken (c : Nat) (v : Int) : Bool :=
  if c = 153 then decide (v = 0)
  else if c = 154 then decide (v ≠ 0)
  else if c = 155 then decide (v < 0)
  else if c = 156 then decide (0 ≤ v)
  else if c = 157 then decide (0 < v)
  else if c = 158 then decide (v ≤ 0)
  else false

/-- The branch-taken condition of the six binary comparison opcodes, written
in the direction of the spec: `a` is the second-from-top value, `b` the top,
and the branch tests `a OP b`. -/
def icmpTaken (c : Nat) (a b : Int) : Bool :=
  if c = 159 then decide (a = b)
  else if c = 160 then decide (a ≠ b)
  else if c = 161 then decide (a < b)
  else if c = 162 then decide (a ≥ b)
  else if c = 163 then decide (a > b)
  else if c = 164 then decide (a ≤ b)
  else false

theorem stkRead_some {st : List Int} {opc k : Nat} {v : Int}
    (h : stkRead st opc k = some v) :
    k ≤ opc ∧ opc - k < st.length ∧ st.get? (opc - k) = some v := by
  unfold stkRead at h
  split at h
  · refine ⟨by assumption, ?_, h⟩
    rcases List.get?_eq_some.mp h with ⟨hl, _⟩
    exact hl
  · cases h

theorem stkWrite_some {st : List Int} {j : Nat} {x : Int} {st2 : List Int}
    (h : stkWrite st j x = some st2) : j < st.length ∧ st2 = st.set j x := by
  unfold stkWrite at h
  split at h
  · cases h; exact ⟨by assumption, rfl⟩
  · cases h

theorem stkWrite_of_lt {st : List Int} {j : Nat} (x : Int) (h : j < st.length) :
    stkWrite st j x = some (st.set j x) := by
  unfold stkWrite
  rw [if_pos h]

theorem pushv_next {s : VMState} {v : Int} {npc : Nat} {s' : VMState}
    (h : pushv s v npc = StepRes.next s') :
    s.op_count < s.op_stack.length ∧
      s' = { s with op_stack := s.op_stack.set s.op_count v,
                    op_count := s.op_count + 1, pc := npc } := by
  unfold pushv at h
  cases hw : stkWrite s.op_stack s.op_count v with
  | none => rw [hw] at h; cases h
  | some st =>
    rw [hw] at h
    cases h
    rcases stkWrite_some hw with ⟨h1, h2⟩
    exact ⟨h1, by rw [h2]⟩

theorem wrap16_eq_self {x : Int} (h1 : -32768 ≤ x) (h2 : x < 32768) : wrap16 x = x := by
  unfold wrap16
  omega

/-- After the three wrapping `i16` steps of a taken conditional branch
(`pc += 3` before them), the final `usize` value is exactly
`pc_of_opcode + offset` whenever that target lies in `[0, 2^15)`. -/
theorem branch_chain (pc3 : Nat) (off : Int)
    (h0 : 0 ≤ (pc3 : Int) - 3 + off) (h1 : (pc3 : Int) - 3 + off < 32768) :
    (usizeOfI16 (wrap16 (wrap16 (wrap16 (pc3 : Int) + off) - 3)) : Int) =
      (pc3 : Int) - 3 + off := by
  unfold usizeOfI16 wrap16
  omega

/-- The two wrapping `i16` steps of `goto` give exactly `pc_of_opcode + offset`
whenever that target lies in `[0, 2^15)`. -/
theorem goto_chain (pc : Nat) (off : Int)
    (h0 : 0 ≤ (pc : Int) + off) (h1 : (pc : Int) + off < 32768) :
    (usizeOfI16 (wrap16 (wrap16 (pc : Int) + off)) : Int) = (pc : Int) + off := by
  unfold usizeOfI16 wrap16
  omega

theorem if_branch_pc_taken (s : VMState) (b1 b2 npop : Nat)
    (h0 : 0 ≤ (s.pc : Int) + i16_of_bytes b1 b2)
    (h1 : (s.pc : Int) + i16_of_bytes b1 b2 < 32768) :
    ((if_branch s b1 b2 true npop).pc : Int) = (s.pc : Int) + i16_of_bytes b1 b2 := by
  unfold if_branch
  simp only [if_true]
  have hch := branch_chain (s.pc + 3) (i16_of_bytes b1 b2) (by push_cast; omega)
    (by push_cast; omega)
  push_cast at hch ⊢
  omega

theorem stkRead_eq_some_iff {st : List Int} {opc k : Nat} {v : Int} :
    stkRead st opc k = some v ↔ k ≤ opc ∧ opc - k < st.length ∧ st.get? (opc - k) = some v := by
  unfold stkRead
  split
  · rename_i hk
    constructor
    · intro h
      rcases List.get?_eq_some.mp h with ⟨hlen, _⟩
      exact ⟨hk, hlen, h⟩
    · intro h
      exact h.2.2
  · rename_i hk
    constructor
    · intro h
      cases h
    · intro h
      exact absurd h.1 hk

theorem stkWrite_eq_some_iff {st : List Int} {j : Nat} {x : Int} {st2 : List Int} :
    stkWrite st j x = some st2 ↔ j < st.length ∧ st2 = st.set j x := by
  unfold stkWrite
  split
  · rename_i hj
    constructor
    · intro h
      cases h
      exact ⟨hj, rfl⟩
    · intro h
      rw [h.2]
  · rename_i hj
    constructor
    · intro h
      cases h
    · intro h
      exact absurd h.1 hj

/-- Every non-call instruction preserves the stack-counter bound and the
length of the operand stack. -/
theorem step_next_stack_inv {cls : ClassFile} {m : Method} {s s' : VMState}
    (hstep : step cls m s = StepRes.next s')
    (hinv : s.op_count ≤ s.op_stack.length) :
    s'.op_count ≤ s'.op_stack.length ∧ s'.op_stack.length = s.op_stack.length := by
  unfold step at hstep
  repeat' split at hstep
  all_goals (try cases hstep)
  all_goals (try (rcases pushv_next hstep with ⟨hlt, rfl⟩; simp; omega))
  all_goals (try simp only [stkRead_eq_some_iff, stkWrite_eq_some_iff] at *)
  all_goals (try casesm* _ ∧ _)
  all_goals subst_vars
  all_goals (simp [if_branch, List.length_set] <;> omega)

/-- A successful pop loop decremented `op_count` once per parameter and kept
the length of the locals it filled. -/
theorem popLoop_some_inv {st : List Int} :
    ∀ {np opc : Nat} {own ol : List Int} {opc2 : Nat},
    popLoop st np opc own = some (ol, opc2) →
    opc2 = opc - np ∧ np ≤ opc ∧ ol.length = own.length := by
  intro np
  induction np with
  | zero =>
    intro opc own ol opc2 h
    unfold popLoop at h
    cases h
    exact ⟨by omega, by omega, rfl⟩
  | succ n ih =>
    intro opc own ol opc2 h
    unfold popLoop at h
    cases hr : stkRead st opc 1 with
    | none =>
      simp only [hr] at h
      cases h
    | some v =>
      simp only [hr] at h
      cases hw : stkWrite own n v with
      | none =>
        simp only [hw] at h
        cases h
      | some own2 =>
        simp only [hw] at h
        rcases stkRead_eq_some_iff.mp hr with ⟨hk, _, _⟩
        rcases stkWrite_eq_some_iff.mp hw with ⟨_, rfl⟩
        rcases ih h with ⟨h1, h2, h3⟩
        refine ⟨by omega, by omega, ?_⟩
        rw [h3, List.length_set]

/-- Full description of a successful pop loop: it returns
`op_count - num_params`, and fills slots `num_params - 1 .. 0` of the callee
locals with the popped stack values in reverse pop order, so that slot `j`
holds the stack entry at depth `op_count - num_params + j`. -/
theorem popLoop_spec (st : List Int) :
    ∀ (np opc : Nat) (own : List Int), np ≤ opc → opc ≤ st.length → np ≤ own.length →
    ∃ own2, popLoop st np opc own = some (own2, opc - np) ∧
      own2.length = own.length ∧
      ∀ j : Nat, own2.get? j = if j < np then st.get? (opc - np + j) else own.get? j := by
  intro np
  induction np with
  | zero =>
    intro opc own h1 h2 h3
    refine ⟨own, by unfold popLoop; rw [Nat.sub_zero], rfl, ?_⟩
    intro j
    simp
  | succ n ih =>
    intro opc own h1 h2 h3
    have hlt : opc - 1 < st.length := by omega
    obtain ⟨v, hv⟩ : ∃ v, st.get? (opc - 1) = some v := by
      rcases List.get?_eq_some.mpr ⟨hlt, rfl⟩ with h
      exact ⟨st.get ⟨opc - 1, hlt⟩, h⟩
    have hread : stkRead st opc 1 = some v := by
      unfold stkRead
      rw [if_pos (by omega)]
      exact hv
    have hwrite : stkWrite own n v = some (own.set n v) :=
      stkWrite_of_lt v (by omega)
    obtain ⟨own2, heq, hlen, hptw⟩ :=
      ih (opc - 1) (own.set n v) (by omega) (by omega) (by rw [List.length_set]; omega)
    refine ⟨own2, ?_, by rw [hlen, List.length_set], ?_⟩
    · unfold popLoop
      simp only [hread, hwrite, heq]
      have : opc - 1 - n = opc - (n + 1) := by omega
      rw [this]
    · intro j
      rw [hptw j]
      rcases Nat.lt_trichotomy j n with hj | hj | hj
      · rw [if_pos hj, if_pos (by omega)]
        have : opc - 1 - n + j = opc - (n + 1) + j := by omega
        rw [this]
      · subst hj
        rw [if_neg (by omega), if_pos (by omega)]
        have h5 : opc - (j + 1) + j = opc - 1 := by omega
        rw [h5, hv]
        have h6 : (own.set j v).get? j = some v := by
          rw [List.get?_set_eq, List.get?_eq_some.mpr ⟨by omega, rfl⟩]
          rfl
        rw [h6]
      · rw [if_neg (by omega), if_neg (by omega), List.get?_set_ne _ _ (by omega)]

theorem step_eq_ifeq {cls : ClassFile} {m : Method} {s : VMState} {p1 p2 : Nat} {v : Int}
    (hc : m.code.code.get? s.pc = some 153)
    (h1 : m.code.code.get? (s.pc + 1) = some p1)
    (h2 : m.code.code.get? (s.pc + 2) = some p2)
    (hv : stkRead s.op_stack s.op_count 1 = some v) :
    step cls m s = StepRes.next (if_branch s p1 p2 (decide (v = 0)) 1) := by
  unfold step
  rw [hc, h1, h2, hv]

theorem step_eq_ifne {cls : ClassFile} {m : Method} {s : VMState} {p1 p2 : Nat} {v : Int}
    (hc : m.code.code.get? s.pc = some 154)
    (h1 : m.code.code.get? (s.pc + 1) = some p1)
    (h2 : m.code.code.get? (s.pc + 2) = some p2)
    (hv : stkRead s.op_stack s.op_count 1 = some v) :
    step cls m s = StepRes.next (if_branch s p1 p2 (decide (v ≠ 0)) 1) := by
  unfold step
  rw [hc, h1, h2, hv]

theorem step_eq_iflt {cls : ClassFile} {m : Method} {s : VMState} {p1 p2 : Nat} {v : Int}
    (hc : m.code.code.get? s.pc = some 155)
    (h1 : m.code.code.get? (s.pc + 1) = some p1)
    (h2 : m.code.code.get? (s.pc + 2) = some p2)
    (hv : stkRead s.op_stack s.op_count 1 = some v) :
    step cls m s = StepRes.next (if_branch s p1 p2 (decide (v < 0)) 1) := by
  unfold step
  rw [hc, h1, h2, hv]

theorem step_eq_ifge {cls : ClassFile} {m : Method} {s : VMState} {p1 p2 : Nat} {v : Int}
    (hc : m.code.code.get? s.pc = some 156)
    (h1 : m.code.code.get? (s.pc + 1) = some p1)
    (h2 : m.code.code.get? (s.pc + 2) = some p2)
    (hv : stkRead s.op_stack s.op_count 1 = some v) :
    step cls m s = StepRes.next (if_branch s p1 p2 (decide (0 ≤ v)) 1) := by
  unfold step
  rw [hc, h1, h2, hv]

theorem step_eq_ifgt {cls : ClassFile} {m : Method} {s : VMState} {p1 p2 : Nat} {v : Int}
    (hc : m.code.code.get? s.pc = some 157)
    (h1 : m.code.code.get? (s.pc + 1) = some p1)
    (h2 : m.code.code.get? (s.pc + 2) = some p2)
    (hv : stkRead s.op_stack s.op_count 1 = some v) :
    step cls m s = StepRes.next (if_branch s p1 p2 (decide (0 < v)) 1) := by
  unfold step
  rw [hc, h1, h2, hv]

theorem step_eq_ifle {cls : ClassFile} {m : Method} {s : VMState} {p1 p2 : Nat} {v : Int}
    (hc : m.code.code.get? s.pc = some 158)
    (h1 : m.code.code.get? (s.pc + 1) = some p1)
    (h2 : m.code.code.get? (s.pc + 2) = some p2)
    (hv : stkRead s.op_stack s.op_count 1 = some v) :
    step cls m s = StepRes.next (if_branch s p1 p2 (decide (v ≤ 0)) 1) := by
  unfold step
  rw [hc, h1, h2, hv]

theorem step_eq_icmpeq {cls : ClassFile} {m : Method} {s : VMState} {p1 p2 : Nat}
    {op1 op2 : Int}
    (hc : m.code.code.get? s.pc = some 159)
    (h1 : m.code.code.get? (s.pc + 1) = some p1)
    (h2 : m.code.code.get? (s.pc + 2) = some p2)
    (ht : stkRead s.op_stack s.op_count 1 = some op1)
    (hs : stkRead s.op_stack s.op_count 2 = some op2) :
    step cls m s = StepRes.next (if_branch s p1 p2 (decide (op1 = op2)) 2) := by
  unfold step
  rw [hc, h1, h2, ht, hs]

theorem step_eq_icmpne {cls : ClassFile} {m : Method} {s : VMState} {p1 p2 : Nat}
    {op1 op2 : Int}
    (hc : m.code.code.get? s.pc = some 160)
    (h1 : m.code.code.get? (s.pc + 1) = some p1)
    (h2 : m.code.code.get? (s.pc + 2) = some p2)
    (ht : stkRead s.op_stack s.op_count 1 = some op1)
    (hs : stkRead s.op_stack s.op_count 2 = some op2) :
    step cls m s = StepRes.next (if_branch s p1 p2 (decide (op1 ≠ op2)) 2) := by
  unfold step
  rw [hc, h1, h2, ht, hs]

theorem step_eq_icmplt {cls : ClassFile} {m : Method} {s : VMState} {p1 p2 : Nat}
    {op1 op2 : Int}
    (hc : m.code.code.get? s.pc = some 161)
    (h1 : m.code.code.get? (s.pc + 1) = some p1)
    (h2 : m.code.code.get? (s.pc + 2) = some p2)
    (ht : stkRead s.op_stack s.op_count 1 = some op1)
    (hs : stkRead s.op_stack s.op_count 2 = some op2) :
    step cls m s = StepRes.next (if_branch s p1 p2 (decide (op2 < op1)) 2) := by
  unfold step
  rw [hc, h1, h2, ht, hs]

theorem step_eq_icmpge {cls : ClassFile} {m : Method} {s : VMState} {p1 p2 : Nat}
    {op1 op2 : Int}
    (hc : m.code.code.get? s.pc = some 162)
    (h1 : m.code.code.get? (s.pc + 1) = some p1)
    (h2 : m.code.code.get? (s.pc + 2) = some p2)
    (ht : stkRead s.op_stack s.op_count 1 = some op1)
    (hs : stkRead s.op_stack s.op_count 2 = some op2) :
    step cls m s = StepRes.next (if_branch s p1 p2 (decide (op1 ≤ op2)) 2) := by
  unfold step
  rw [hc, h1, h2, ht, hs]

theorem step_eq_icmpgt {cls : ClassFile} {m : Method} {s : VMState} {p1 p2 : Nat}
    {op1 op2 : Int}
    (hc : m.code.code.get? s.pc = some 163)
    (h1 : m.code.code.get? (s.pc + 1) = some p1)
    (h2 : m.code.code.get? (s.pc + 2) = some p2)
    (ht : stkRead s.op_stack s.op_count 1 = some op1)
    (hs : stkRead s.op_stack s.op_count 2 = some op2) :
    step cls m s = StepRes.next (if_branch s p1 p2 (decide (op1 < op2)) 2) := by
  unfold step
  rw [hc, h1, h2, ht, hs]

theorem step_eq_icmple {cls : ClassFile} {m : Method} {s : VMState} {p1 p2 : Nat}
    {op1 op2 : Int}
    (hc : m.code.code.get? s.pc = some 164)
    (h1 : m.code.code.get? (s.pc + 1) = some p1)
    (h2 : m.code.code.get? (s.pc + 2) = some p2)
    (ht : stkRead s.op_stack s.op_count 1 = some op1)
    (hs : stkRead s.op_stack s.op_count 2 = some op2) :
    step cls m s = StepRes.next (if_branch s p1 p2 (decide (op2 ≤ op1)) 2) := by
  unfold step
  rw [hc, h1, h2, ht, hs]

theorem step_eq_goto {cls : ClassFile} {m : Method} {s : VMState} {p1 p2 : Nat}
    (hc : m.code.code.get? s.pc = some 167)
    (h1 : m.code.code.get? (s.pc + 1) = some p1)
    (h2 : m.code.code.get? (s.pc + 2) = some p2) :
    step cls m s =
      StepRes.next
        { s with pc := usizeOfI16 (wrap16 (wrap16 (s.pc : Int) + i16_of_bytes p1 p2)) } := by
  unfold step
  rw [hc, h1, h2]

theorem step_eq_invokestatic {cls : ClassFile} {m : Method} {s : VMState} {p1 p2 : Nat}
    (hc : m.code.code.get? s.pc = some 184)
    (h1 : m.code.code.get? (s.pc + 1) = some p1)
    (h2 : m.code.code.get? (s.pc + 2) = some p2) :
    step cls m s = StepRes.invoke (256 * p1 + p2) := by
  unfold step
  rw [hc, h1, h2]

theorem step_eq_ldc_int {cls : ClassFile} {m : Method} {s : VMState} {param : Nat}
    {bytes : Int}
    (hc : m.code.code.get? s.pc = some 18)
    (hp : m.code.code.get? (s.pc + 1) = some param)
    (hk : get_constant cls.constant_pool param = some (ConstantPool.Integer bytes)) :
    step cls m s = pushv s bytes (s.pc + 2) := by
  unfold step
  simp only [hc, hp, hk]

theorem step_eq_ldc_not_int {cls : ClassFile} {m : Method} {s : VMState} {param : Nat}
    {v : ConstantPool}
    (hc : m.code.code.get? s.pc = some 18)
    (hp : m.code.code.get? (s.pc + 1) = some param)
    (hk : get_constant cls.constant_pool param = some v)
    (hni : ∀ b : Int, v ≠ ConstantPool.Integer b) :
    step cls m s = StepRes.fatal := by
  unfold step
  simp only [hc, hp, hk]
  cases v with
  | Utf8 a => rfl
  | Integer b => exact absurd rfl (hni b)
  | Class a => rfl
  | MethodOrFieldRef a b => rfl
  | NameAndType a b => rfl

theorem step_eq_bipush {cls : ClassFile} {m : Method} {s : VMState} {param : Nat}
    (hc : m.code.code.get? s.pc = some 16)
    (hp : m.code.code.get? (s.pc + 1) = some param) :
    step cls m s = pushv s (i8_of_byte param) (s.pc + 2) := by
  unfold step
  rw [hc, hp]

theorem step_eq_sipush {cls : ClassFile} {m : Method} {s : VMState} {p1 p2 : Nat}
    (hc : m.code.code.get? s.pc = some 17)
    (h1 : m.code.code.get? (s.pc + 1) = some p1)
    (h2 : m.code.code.get? (s.pc + 2) = some p2) :
    step cls m s = pushv s (i16_of_bytes p1 p2) (s.pc + 3) := by
  unfold step
  rw [hc, h1, h2]

theorem step_eq_iconst {cls : ClassFile} {m : Method} {s : VMState} {c : Nat}
    (hc2 : 2 ≤ c) (hc8 : c ≤ 8)
    (hc : m.code.code.get? s.pc = some c) :
    step cls m s = pushv s ((c : Int) - 3) (s.pc + 1) := by
  interval_cases c <;> (unfold step; rw [hc]) <;> norm_num

theorem step_eq_iadd {cls : ClassFile} {m : Method} {s : VMState} {op1 op2 : Int}
    (hc : m.code.code.get? s.pc = some 96)
    (h1 : stkRead s.op_stack s.op_count 1 = some op1)
    (h2 : stkRead s.op_stack s.op_count 2 = some op2) :
    step cls m s = StepRes.next { s with
      op_stack := s.op_stack.set (s.op_count - 2) (wrap32 (op1 + op2)),
      op_count := s.op_count - 1, pc := s.pc + 1 } := by
  unfold step
  simp only [hc, h1, h2]
  rw [stkWrite_of_lt _ (stkRead_eq_some_iff.mp h2).2.1]

theorem step_eq_isub {cls : ClassFile} {m : Method} {s : VMState} {op1 op2 : Int}
    (hc : m.code.code.get? s.pc = some 100)
    (h1 : stkRead s.op_stack s.op_count 1 = some op1)
    (h2 : stkRead s.op_stack s.op_count 2 = some op2) :
    step cls m s = StepRes.next { s with
      op_stack := s.op_stack.set (s.op_count - 2) (wrap32 (op2 - op1)),
      op_count := s.op_count - 1, pc := s.pc + 1 } := by
  unfold step
  simp only [hc, h1, h2]
  rw [stkWrite_of_lt _ (stkRead_eq_some_iff.mp h2).2.1]

theorem step_eq_imul {cls : ClassFile} {m : Method} {s : VMState} {op1 op2 : Int}
    (hc : m.code.code.get? s.pc = some 104)
    (h1 : stkRead s.op_stack s.op_count 1 = some op1)
    (h2 : stkRead s.op_stack s.op_count 2 = some op2) :
    step cls m s = StepRes.next { s with
      op_stack := s.op_stack.set (s.op_count - 2) (wrap32 (op2 * op1)),
      op_count := s.op_count - 1, pc := s.pc + 1 } := by
  unfold step
  simp only [hc, h1, h2]
  rw [stkWrite_of_lt _ (stkRead_eq_some_iff.mp h2).2.1]

theorem step_eq_idiv {cls : ClassFile} {m : Method} {s : VMState} {op1 op2 : Int}
    (hc : m.code.code.get? s.pc = some 108)
    (h1 : stkRead s.op_stack s.op_count 1 = some op1)
    (h2 : stkRead s.op_stack s.op_count 2 = some op2)
    (hz : op1 ≠ 0) :
    step cls m s = StepRes.next { s with
      op_stack := s.op_stack.set (s.op_count - 2) (wrap32 (Int.tdiv op2 op1)),
      op_count := s.op_count - 1, pc := s.pc + 1 } := by
  unfold step
  simp only [hc, h1, h2]
  rw [if_neg hz, stkWrite_of_lt _ (stkRead_eq_some_iff.mp h2).2.1]

theorem step_eq_idiv_zero {cls : ClassFile} {m : Method} {s : VMState} {op2 : Int}
    (hc : m.code.code.get? s.pc = some 108)
    (h1 : stkRead s.op_stack s.op_count 1 = some 0)
    (h2 : stkRead s.op_stack s.op_count 2 = some op2) :
    step cls m s = StepRes.fatal := by
  unfold step
  simp only [hc, h1, h2]
  rw [if_pos trivial]

theorem step_eq_irem {cls : ClassFile} {m : Method} {s : VMState} {op1 op2 : Int}
    (hc : m.code.code.get? s.pc = some 112)
    (h1 : stkRead s.op_stack s.op_count 1 = some op1)
    (h2 : stkRead s.op_stack s.op_count 2 = some op2)
    (hz : op1 ≠ 0) :
    step cls m s = StepRes.next { s with
      op_stack := s.op_stack.set (s.op_count - 2) (wrap32 (Int.tmod op2 op1)),
      op_count := s.op_count - 1, pc := s.pc + 1 } := by
  unfold step
  simp only [hc, h1, h2]
  rw [if_neg hz, stkWrite_of_lt _ (stkRead_eq_some_iff.mp h2).2.1]

theorem step_eq_irem_zero {cls : ClassFile} {m : Method} {s : VMState} {op2 : Int}
    (hc : m.code.code.get? s.pc = some 112)
    (h1 : stkRead s.op_stack s.op_count 1 = some 0)
    (h2 : stkRead s.op_stack s.op_count 2 = some op2) :
    step cls m s = StepRes.fatal := by
  unfold step
  simp only [hc, h1, h2]
  rw [if_pos trivial]

theorem step_eq_ineg {cls : ClassFile} {m : Method} {s : VMState} {op1 : Int}
    (hc : m.code.code.get? s.pc = some 116)
    (h1 : stkRead s.op_stack s.op_count 1 = some op1) :
    step cls m s = StepRes.next { s with
      op_stack := s.op_stack.set (s.op_count - 1) (wrap32 (op1 * (-1))),
      pc := s.pc + 1 } := by
  unfold step
  simp only [hc, h1]
  rw [stkWrite_of_lt _ (stkRead_eq_some_iff.mp h1).2.1]

/-- The full `invokestatic` handling preserves the stack-counter bound, the
operand-stack length, the caller locals and advances the caller `pc` by 3. -/
theorem doInvoke_some_inv {cls : ClassFile}
    {exec : Method → List Int → Option (Option Int)} {s s' : VMState} {idx : Nat}
    (h : doInvoke cls exec s idx = some s')
    (hinv : s.op_count ≤ s.op_stack.length) :
    s'.op_count ≤ s'.op_stack.length ∧ s'.op_stack.length = s.op_stack.length ∧
      s'.locals = s.locals ∧ s'.pc = s.pc + 3 := by
  unfold doInvoke at h
  cases hf : find_method_from_index idx cls with
  | none =>
    simp only [hf] at h
    cases h
  | some mth =>
    simp only [hf] at h
    by_cases hd : mth.descriptor.length < 3
    · rw [if_pos hd] at h
      cases h
    · rw [if_neg hd] at h
      cases hp : popLoop s.op_stack (mth.descriptor.length - 3) s.op_count
          (List.replicate mth.code.max_locals 0) with
      | none =>
        simp only [hp] at h
        cases h
      | some pr =>
        obtain ⟨own_locals, opc2⟩ := pr
        simp only [hp] at h
        rcases popLoop_some_inv hp with ⟨hopc2, hnp, _⟩
        cases he : exec mth own_locals with
        | none =>
          simp only [he] at h
          cases h
        | some r =>
          simp only [he] at h
          cases r with
          | none =>
            cases h
            refine ⟨by simp; omega, by simp, by simp, by simp⟩
          | some res =>
            cases hw : stkWrite s.op_stack opc2 res with
            | none =>
              simp only [hw] at h
              cases h
            | some st2 =>
              simp only [hw] at h
              cases h
              rcases stkWrite_eq_some_iff.mp hw with ⟨hlt, rfl⟩
              refine ⟨by simp [List.length_set]; omega, by simp [List.length_set], by simp,
                by simp⟩

/-- Every state reachable inside one frame keeps `op_count` within the
operand-stack length, which itself stays equal to `max_stack`. -/
theorem reachable_inv {cls : ClassFile} {m : Method} {locals0 : List Int} :
    ∀ {s : VMState}, Reachable cls m locals0 s →
    s.op_count ≤ s.op_stack.length ∧ s.op_stack.length = m.code.max_stack := by
  intro s h
  induction h with
  | init => exact ⟨by simp [initState], by simp [initState]⟩
  | next s1 s2 hr hpc hstep ih =>
    rcases step_next_stack_inv hstep ih.1 with ⟨h1, h2⟩
    exact ⟨h1, h2.trans ih.2⟩
  | invoke s1 s2 index exec hr hpc hstep hdo ih =>
    rcases doInvoke_some_inv hdo ih.1 with ⟨h1, h2, _, _⟩
    exact ⟨h1, h2.trans ih.2⟩

theorem wrap32_eq_asSigned32 (x : Int) : wrap32 x = asSigned32 (x % 4294967296) := by
  unfold wrap32 asSigned32
  split <;> omega

theorem get?_replicate_eq (n m : Nat) (a : Int) :
    (List.replicate n a).get? m = if m < n then some a else none := by
  by_cases h : m < n
  · rw [if_pos h]
    exact List.get?_eq_some.mpr ⟨by simpa using h, List.get_replicate a ⟨m, by simpa using h⟩⟩
  · rw [if_neg h]
    exact List.get?_eq_none.mpr (by simpa using h)

theorem if_branch_fields (s : VMState) (b1 b2 : Nat) (t : Bool) (n : Nat) :
    (if_branch s b1 b2 t n).op_count = s.op_count - n ∧
    (if_branch s b1 b2 t n).op_stack = s.op_stack ∧
    (if_branch s b1 b2 t n).locals = s.locals ∧
    (if_branch s b1 b2 t n).pc =
      if t then
        usizeOfI16 (wrap16 (wrap16 (wrap16 ((s.pc + 3 : Nat) : Int) + i16_of_bytes b1 b2) - 3))
      else s.pc + 3 := by
  unfold if_branch
  cases t
  · refine ⟨rfl, rfl, rfl, ?_⟩
    simp
  · refine ⟨rfl, rfl, rfl, ?_⟩
    simp

/-- The parameter slots of a popped frame, in closed form: slot `i < np`
holds the caller stack entry at index `op_count - np + i`. -/
theorem paramSlice_get (st : List Int) (np opc ml i : Nat)
    (h1 : np ≤ opc) (h2 : opc ≤ st.length) (hi : i < np) :
    ((st.drop (opc - np)).take np ++ List.replicate (ml - np) 0).get? i =
      st.get? (opc - np + i) := by
  rw [List.get?_append (by rw [List.length_take, List.length_drop]; omega),
    List.get?_take hi, List.get?_drop]

/-- Closed form of the pop loop when the callee locals start as zeros: the
result is the popped stack slice followed by the remaining zeros. -/
theorem popLoop_replicate_closed (st : List Int) (np opc ml : Nat)
    (h1 : np ≤ opc) (h2 : opc ≤ st.length) (h3 : np ≤ ml) :
    popLoop st np opc (List.replicate ml 0) =
      some ((st.drop (opc - np)).take np ++ List.replicate (ml - np) 0, opc - np) := by
  obtain ⟨own2, heq, hlen, hptw⟩ :=
    popLoop_spec st np opc (List.replicate ml 0) h1 h2 (by simp [h3])
  rw [heq]
  have hlen_take : ((st.drop (opc - np)).take np).length = np := by
    rw [List.length_take, List.length_drop]
    omega
  have hform : own2 = (st.drop (opc - np)).take np ++ List.replicate (ml - np) 0 := by
    apply List.ext_get?
    intro j
    rw [hptw j]
    by_cases hj : j < np
    · rw [if_pos hj, paramSlice_get st np opc ml j h1 h2 hj]
    · rw [if_neg hj, List.get?_append_right (by omega), hlen_take, get?_replicate_eq,
        get?_replicate_eq]
      by_cases hml2 : j < ml
      · rw [if_pos hml2, if_pos (by omega)]
      · rw [if_neg hml2, if_neg (by omega)]
  rw [hform]

/-- C5: the spec requires a method record named `<init>` whose access flags
LACK the static bit 0x0008 to be rejected with "only static methods
supported". The code (src/src/main.rs:329) tests `(flags & 0x0008) > 0` and
therefore does the opposite: it accepts a non-static `<init>` (flags = 0)
and rejects a static one (flags = 8), contradicting its own FIXME comment
and panic message. A record with another name is never rejected, as the
claim says. -/
theorem init_check_is_inverted :
    initStaticCheckPanics "<init>" 0 = false ∧
    initStaticCheckPanics "<init>" 8 = true ∧
    initStaticCheckPanics "main" 0 = false ∧
    initStaticCheckPanics "main" 8 = false := by
  decide

def w9m : Method :=
  { name := "v", descriptor := "()V",
    code := { max_stack := 2, max_locals := 0, code := [] } }

def w9cls : ClassFile := { constant_pool := [], method := [w9m] }

/-- C9: whenever `pc` has reached or passed the end of the code array, the
dispatch loop of `run` exits and the invocation returns void (`some none`)
rather than failing (src/src/main.rs:391,722). -/
theorem run_off_end_returns_void (cls : ClassFile) (fuel : Nat) (m : Method) (s : VMState)
    (h : m.code.code.length ≤ s.pc) :
    run cls (fuel + 1) m s = some none := by
  simp only [run]
  rw [if_neg (by omega)]

/-- Witness for C9 at a method with empty code and `pc = 0`. -/
theorem run_off_end_returns_void_witness :
    run w9cls 1 w9m (initState w9m []) = some none :=
  run_off_end_returns_void w9cls 0 w9m (initState w9m []) (by decide)

/-- C6: at every state reachable during execution of a method (through plain
steps and through complete `invokestatic` handling), the operand-stack
counter satisfies `0 ≤ op_count ≤ max_stack` (src/src/main.rs:384-385). -/
theorem reachable_op_count_bounds (cls : ClassFile) (m : Method) (locals0 : List Int)
    (s : VMState) (h : Reachable cls m locals0 s) :
    0 ≤ s.op_count ∧ s.op_count ≤ m.code.max_stack := by
  rcases reachable_inv h with ⟨h1, h2⟩
  exact ⟨Nat.zero_le _, by omega⟩

/-- Witness for C6 at the initial frame of a concrete method. -/
theorem reachable_op_count_bounds_witness :
    0 ≤ (initState w9m []).op_count ∧ (initState w9m []).op_count ≤ w9m.code.max_stack :=
  reachable_op_count_bounds w9cls w9m [] (initState w9m []) Reachable.init

/-- C8: the constant-push opcodes. Opcode byte `c` in `2..8` (iconst_m1 ..
iconst_5) pushes `c - 3`, i.e. the constants `-1 .. 5`; `bipush` pushes its
byte sign-extended as a signed 8-bit value, congruent to the byte mod 256,
and in particular byte 0xFF pushes `-1`; `sipush` pushes its big-endian
2-byte immediate sign-extended as a signed 16-bit value, congruent to the
immediate mod 65536 (src/src/main.rs:635-641,703-717). -/
theorem const_push_semantics (cls : ClassFile) (m : Method) (s : VMState) :
    (∀ c : Nat, 2 ≤ c → c ≤ 8 →
      m.code.code.get? s.pc = some c →
      s.op_count < s.op_stack.length →
      step cls m s = StepRes.next { s with
        op_stack := s.op_stack.set s.op_count ((c : Int) - 3),
        op_count := s.op_count + 1, pc := s.pc + 1 } ∧
      -1 ≤ (c : Int) - 3 ∧ (c : Int) - 3 ≤ 5) ∧
    (∀ b : Nat,
      m.code.code.get? s.pc = some 16 →
      m.code.code.get? (s.pc + 1) = some b →
      s.op_count < s.op_stack.length →
      step cls m s = StepRes.next { s with
        op_stack := s.op_stack.set s.op_count (i8_of_byte b),
        op_count := s.op_count + 1, pc := s.pc + 2 } ∧
      (-128 ≤ i8_of_byte b ∧ i8_of_byte b < 128 ∧ i8_of_byte b % 256 = (b : Int) % 256)) ∧
    i8_of_byte 255 = -1 ∧
    (∀ b1 b2 : Nat,
      m.code.code.get? s.pc = some 17 →
      m.code.code.get? (s.pc + 1) = some b1 →
      m.code.code.get? (s.pc + 2) = some b2 →
      s.op_count < s.op_stack.length →
      step cls m s = StepRes.next { s with
        op_stack := s.op_stack.set s.op_count (i16_of_bytes b1 b2),
        op_count := s.op_count + 1, pc := s.pc + 3 } ∧
      (-32768 ≤ i16_of_bytes b1 b2 ∧ i16_of_bytes b1 b2 < 32768 ∧
        i16_of_bytes b1 b2 % 65536 = ((256 * b1 + b2 : Nat) : Int) % 65536)) := by
  refine ⟨?_, ?_, by decide, ?_⟩
  · intro c hc2 hc8 hcode hroom
    refine ⟨?_, by omega, by omega⟩
    rw [step_eq_iconst hc2 hc8 hcode]
    unfold pushv
    rw [stkWrite_of_lt _ hroom]
  · intro b hcode hb hroom
    refine ⟨?_, ?_⟩
    · rw [step_eq_bipush hcode hb]
      unfold pushv
      rw [stkWrite_of_lt _ hroom]
    · unfold i8_of_byte wrap8
      refine ⟨by omega, by omega, by omega⟩
  · intro b1 b2 hcode hb1 hb2 hroom
    refine ⟨?_, ?_⟩
    · rw [step_eq_sipush hcode hb1 hb2]
      unfold pushv
      rw [stkWrite_of_lt _ hroom]
    · unfold i16_of_bytes wrap16
      refine ⟨by omega, by omega, by push_cast; omega⟩

def w8m : Method :=
  { name := "b", descriptor := "()V",
    code := { max_stack := 1, max_locals := 0, code := [16, 255] } }

/-- Witness for C8: bipush 0xFF at a concrete frame pushes -1. -/
theorem const_push_semantics_witness :
    step w9cls w8m { locals := [], op_stack := [0], op_count := 0, pc := 0 } =
      StepRes.next { locals := [], op_stack := [-1], op_count := 1, pc := 2 } ∧
    (-128 ≤ i8_of_byte 255 ∧ i8_of_byte 255 < 128 ∧
      i8_of_byte 255 % 256 = ((255 : Nat) : Int) % 256) :=
  (const_push_semantics w9cls w8m
    { locals := [], op_stack := [0], op_count := 0, pc := 0 }).2.1 255 rfl rfl (by decide)

/-- C7: `ldc` with a 1-byte pool index (src/src/main.rs:580-597). If the
constant at that index is an Integer, its value is pushed and `pc` advances
by 2; if it is any other variant, the instruction panics
(`StepRes.fatal`), and the dispatch loop aborts the invocation (`none`). -/
theorem ldc_semantics (cls : ClassFile) (m : Method) (s : VMState) (p : Nat)
    (hc : m.code.code.get? s.pc = some 18)
    (hp : m.code.code.get? (s.pc + 1) = some p) :
    (∀ b : Int, get_constant cls.constant_pool p = some (ConstantPool.Integer b) →
      s.op_count < s.op_stack.length →
      step cls m s = StepRes.next { s with
        op_stack := s.op_stack.set s.op_count b,
        op_count := s.op_count + 1, pc := s.pc + 2 }) ∧
    (∀ v : ConstantPool, get_constant cls.constant_pool p = some v →
      (∀ b : Int, v ≠ ConstantPool.Integer b) →
      step cls m s = StepRes.fatal ∧
      (∀ fuel : Nat, s.pc < m.code.code.length → run cls (fuel + 1) m s = none)) := by
  constructor
  · intro b hk hroom
    rw [step_eq_ldc_int hc hp hk]
    unfold pushv
    rw [stkWrite_of_lt _ hroom]
  · intro v hk hni
    have hfatal := step_eq_ldc_not_int hc hp hk hni
    refine ⟨hfatal, ?_⟩
    intro fuel hpc
    simp only [run]
    rw [if_pos hpc]
    simp only [hfatal]

def w7m : Method :=
  { name := "t", descriptor := "()V",
    code := { max_stack := 1, max_locals := 0, code := [18, 1] } }

def w7cls : ClassFile := { constant_pool := [ConstantPool.Integer 42], method := [w7m] }

/-- Witness for C7: ldc of a pool whose entry 1 is Integer 42 pushes 42. -/
theorem ldc_semantics_witness :
    step w7cls w7m { locals := [], op_stack := [0], op_count := 0, pc := 0 } =
      StepRes.next { locals := [], op_stack := [42], op_count := 1, pc := 2 } :=
  (ldc_semantics w7cls w7m { locals := [], op_stack := [0], op_count := 0, pc := 0 } 1
    rfl rfl).1 42 rfl (by decide)

/-- C2: the arithmetic opcodes. With `a` the second-from-top and `b` the top
of the operand stack, iadd, isub, imul, idiv, irem write the wrapped 32-bit
result of `a + b`, `a - b`, `a * b`, `a / b` (truncated), `a mod b`
(truncated, sign of the dividend) at `op_count - 2` and pop one entry; ineg
rewrites the top with the wrapped `-a` of its single operand `a = top`.
`wrap32 (a + b)` is exactly `(a + b) mod 2^32` reinterpreted as a signed
value, and ineg of the minimum 32-bit integer yields itself
(src/src/main.rs:642-692). -/
theorem arith_wrapping_semantics (cls : ClassFile) (m : Method) (s : VMState) (a b : Int) :
    (m.code.code.get? s.pc = some 96 →
      stkRead s.op_stack s.op_count 2 = some a →
      stkRead s.op_stack s.op_count 1 = some b →
      step cls m s = StepRes.next { s with
        op_stack := s.op_stack.set (s.op_count - 2) (wrap32 (a + b)),
        op_count := s.op_count - 1, pc := s.pc + 1 } ∧
      wrap32 (a + b) = asSigned32 ((a + b) % 4294967296)) ∧
    (m.code.code.get? s.pc = some 100 →
      stkRead s.op_stack s.op_count 2 = some a →
      stkRead s.op_stack s.op_count 1 = some b →
      step cls m s = StepRes.next { s with
        op_stack := s.op_stack.set (s.op_count - 2) (wrap32 (a - b)),
        op_count := s.op_count - 1, pc := s.pc + 1 }) ∧
    (m.code.code.get? s.pc = some 104 →
      stkRead s.op_stack s.op_count 2 = some a →
      stkRead s.op_stack s.op_count 1 = some b →
      step cls m s = StepRes.next { s with
        op_stack := s.op_stack.set (s.op_count - 2) (wrap32 (a * b)),
        op_count := s.op_count - 1, pc := s.pc + 1 }) ∧
    (m.code.code.get? s.pc = some 108 →
      stkRead s.op_stack s.op_count 2 = some a →
      stkRead s.op_stack s.op_count 1 = some b →
      b ≠ 0 →
      step cls m s = StepRes.next { s with
        op_stack := s.op_stack.set (s.op_count - 2) (wrap32 (Int.tdiv a b)),
        op_count := s.op_count - 1, pc := s.pc + 1 }) ∧
    (m.code.code.get? s.pc = some 112 →
      stkRead s.op_stack s.op_count 2 = some a →
      stkRead s.op_stack s.op_count 1 = some b →
      b ≠ 0 →
      step cls m s = StepRes.next { s with
        op_stack := s.op_stack.set (s.op_count - 2) (wrap32 (Int.tmod a b)),
        op_count := s.op_count - 1, pc := s.pc + 1 }) ∧
    (m.code.code.get? s.pc = some 116 →
      stkRead s.op_stack s.op_count 1 = some a →
      step cls m s = StepRes.next { s with
        op_stack := s.op_stack.set (s.op_count - 1) (wrap32 (-a)),
        pc := s.pc + 1 } ∧
      (a = -2147483648 → wrap32 (-a) = -2147483648)) := by
  refine ⟨?_, ?_, ?_, ?_, ?_, ?_⟩
  · intro hc ha hb
    refine ⟨?_, wrap32_eq_asSigned32 (a + b)⟩
    rw [step_eq_iadd hc hb ha, Int.add_comm b a]
  · intro hc ha hb
    rw [step_eq_isub hc hb ha]
  · intro hc ha hb
    rw [step_eq_imul hc hb ha]
  · intro hc ha hb hz
    rw [step_eq_idiv hc hb ha hz]
  · intro hc ha hb hz
    rw [step_eq_irem hc hb ha hz]
  · intro hc ha
    constructor
    · rw [step_eq_ineg hc ha]
      have hm : a * (-1) = -a := by ring
      rw [hm]
    · intro hmin
      rw [hmin]
      decide

def w2m : Method :=
  { name := "p", descriptor := "()V",
    code := { max_stack := 2, max_locals := 0, code := [96] } }

/-- Witness for C2: iadd on a stack holding 3 (below) and 4 (top) writes 7. -/
theorem arith_wrapping_semantics_witness :
    step w9cls w2m { locals := [], op_stack := [3, 4], op_count := 2, pc := 0 } =
      StepRes.next { locals := [], op_stack := [7, 4], op_count := 1, pc := 1 } ∧
    wrap32 (3 + 4) = asSigned32 ((3 + 4) % 4294967296) :=
  (arith_wrapping_semantics w9cls w2m
    { locals := [], op_stack := [3, 4], op_count := 2, pc := 0 } 3 4).1 rfl rfl rfl

/-- C4: every binary comparison opcode (159..164) pops exactly two entries
(`op_count` drops by 2, the stack contents and locals are untouched), and
with `a` the second-from-top and `b` the top it branches exactly when
`a OP b` holds, where OP is =, ≠, <, ≥, >, ≤ respectively
(src/src/main.rs:495-572). -/
theorem icmp_semantics (cls : ClassFile) (m : Method) (s s' : VMState) (c b1 b2 : Nat)
    (a b : Int)
    (hc1 : 159 ≤ c) (hc2 : c ≤ 164)
    (hcode : m.code.code.get? s.pc = some c)
    (hb1 : m.code.code.get? (s.pc + 1) = some b1)
    (hb2 : m.code.code.get? (s.pc + 2) = some b2)
    (ha : stkRead s.op_stack s.op_count 2 = some a)
    (hb : stkRead s.op_stack s.op_count 1 = some b)
    (hstep : step cls m s = StepRes.next s') :
    2 ≤ s.op_count ∧ s'.op_count = s.op_count - 2 ∧ s'.op_stack = s.op_stack ∧
    s'.locals = s.locals ∧
    s'.pc = if icmpTaken c a b then
        usizeOfI16 (wrap16 (wrap16 (wrap16 ((s.pc + 3 : Nat) : Int) + i16_of_bytes b1 b2) - 3))
      else s.pc + 3 := by
  have h2le : 2 ≤ s.op_count := (stkRead_eq_some_iff.mp ha).1
  interval_cases c
  · rw [step_eq_icmpeq hcode hb1 hb2 hb ha] at hstep
    cases hstep
    rcases if_branch_fields s b1 b2 (decide (b = a)) 2 with ⟨f1, f2, f3, f4⟩
    refine ⟨h2le, f1, f2, f3, ?_⟩
    rw [f4]
    by_cases hcond : a = b
    · rw [if_pos (by norm_num [decide_eq_true_eq]; omega),
        if_pos (by norm_num [icmpTaken, decide_eq_true_eq]; omega)]
    · rw [if_neg (by norm_num [decide_eq_true_eq]; omega),
        if_neg (by norm_num [icmpTaken, decide_eq_true_eq]; omega)]
  · rw [step_eq_icmpne hcode hb1 hb2 hb ha] at hstep
    cases hstep
    rcases if_branch_fields s b1 b2 (decide (b ≠ a)) 2 with ⟨f1, f2, f3, f4⟩
    refine ⟨h2le, f1, f2, f3, ?_⟩
    rw [f4]
    by_cases hcond : a ≠ b
    · rw [if_pos (by norm_num [decide_eq_true_eq]; omega),
        if_pos (by norm_num [icmpTaken, decide_eq_true_eq]; omega)]
    · rw [if_neg (by norm_num [decide_eq_true_eq]; omega),
        if_neg (by norm_num [icmpTaken, decide_eq_true_eq]; omega)]
  · rw [step_eq_icmplt hcode hb1 hb2 hb ha] at hstep
    cases hstep
    rcases if_branch_fields s b1 b2 (decide (a < b)) 2 with ⟨f1, f2, f3, f4⟩
    refine ⟨h2le, f1, f2, f3, ?_⟩
    rw [f4]
    by_cases hcond : a < b
    · rw [if_pos (by norm_num [decide_eq_true_eq]; omega),
        if_pos (by norm_num [icmpTaken, decide_eq_true_eq]; omega)]
    · rw [if_neg (by norm_num [decide_eq_true_eq]; omega),
        if_neg (by norm_num [icmpTaken, decide_eq_true_eq]; omega)]
  · rw [step_eq_icmpge hcode hb1 hb2 hb ha] at hstep
    cases hstep
    rcases if_branch_fields s b1 b2 (decide (b ≤ a)) 2 with ⟨f1, f2, f3, f4⟩
    refine ⟨h2le, f1, f2, f3, ?_⟩
    rw [f4]
    by_cases hcond : a ≥ b
    · rw [if_pos (by norm_num [decide_eq_true_eq]; omega),
        if_pos (by norm_num [icmpTaken, decide_eq_true_eq]; omega)]
    · rw [if_neg (by norm_num [decide_eq_true_eq]; omega),
        if_neg (by norm_num [icmpTaken, decide_eq_true_eq]; omega)]
  · rw [step_eq_icmpgt hcode hb1 hb2 hb ha] at hstep
    cases hstep
    rcases if_branch_fields s b1 b2 (decide (b < a)) 2 with ⟨f1, f2, f3, f4⟩
    refine ⟨h2le, f1, f2, f3, ?_⟩
    rw [f4]
    by_cases hcond : a > b
    · rw [if_pos (by norm_num [decide_eq_true_eq]; omega),
        if_pos (by norm_num [icmpTaken, decide_eq_true_eq]; omega)]
    · rw [if_neg (by norm_num [decide_eq_true_eq]; omega),
        if_neg (by norm_num [icmpTaken, decide_eq_true_eq]; omega)]
  · rw [step_eq_icmple hcode hb1 hb2 hb ha] at hstep
    cases hstep
    rcases if_branch_fields s b1 b2 (decide (a ≤ b)) 2 with ⟨f1, f2, f3, f4⟩
    refine ⟨h2le, f1, f2, f3, ?_⟩
    rw [f4]
    by_cases hcond : a ≤ b
    · rw [if_pos (by norm_num [decide_eq_true_eq]; omega),
        if_pos (by norm_num [icmpTaken, decide_eq_true_eq]; omega)]
    · rw [if_neg (by norm_num [decide_eq_true_eq]; omega),
        if_neg (by norm_num [icmpTaken, decide_eq_true_eq]; omega)]

def w4m : Method :=
  { name := "c", descriptor := "()V",
    code := { max_stack := 2, max_locals := 0, code := [161, 0, 5] } }

/-- Witness for C4: if_icmplt on stack 1 (below), 2 (top): 1 < 2, so the
branch is taken and two entries are popped. -/
theorem icmp_semantics_witness :
    2 ≤ (2 : Nat) ∧
    (({ locals := [], op_stack := [1, 2], op_count := 0, pc := 5 } : VMState).op_count
        = 2 - 2) ∧
    (({ locals := [], op_stack := [1, 2], op_count := 0, pc := 5 } : VMState).op_stack
        = ([1, 2] : List Int)) ∧
    (({ locals := [], op_stack := [1, 2], op_count := 0, pc := 5 } : VMState).locals
        = ([] : List Int)) ∧
    (({ locals := [], op_stack := [1, 2], op_count := 0, pc := 5 } : VMState).pc
        = if icmpTaken 161 1 2 then
            usizeOfI16 (wrap16 (wrap16 (wrap16 ((0 + 3 : Nat) : Int) + i16_of_bytes 0 5) - 3))
          else 0 + 3) :=
  icmp_semantics w9cls w4m { locals := [], op_stack := [1, 2], op_count := 2, pc := 0 }
    { locals := [], op_stack := [1, 2], op_count := 0, pc := 5 } 161 0 5 1 2
    (by omega) (by omega) rfl rfl rfl rfl rfl (by decide)

def c1m : Method :=
  { name := "big", descriptor := "()V",
    code := { max_stack := 0, max_locals := 0,
              code := List.replicate 40000 0 ++ [167, 0, 0] } }

def c1cls : ClassFile := { constant_pool := [], method := [c1m] }

def c1s : VMState := { locals := [], op_stack := [], op_count := 0, pc := 40000 }

theorem c1m_get_pc : c1m.code.code.get? 40000 = some 167 := by
  show (List.replicate 40000 0 ++ [167, 0, 0]).get? 40000 = some 167
  rw [List.get?_append_right (le_of_eq (List.length_replicate 40000 0)),
    List.length_replicate]
  norm_num

theorem c1m_get_pc1 : c1m.code.code.get? 40001 = some 0 := by
  show (List.replicate 40000 0 ++ [167, 0, 0]).get? 40001 = some 0
  rw [List.get?_append_right
      (by rw [List.length_replicate]; norm_num :
        (List.replicate 40000 (0 : Nat)).length ≤ 40001),
    List.length_replicate]
  norm_num

theorem c1m_get_pc2 : c1m.code.code.get? 40002 = some 0 := by
  show (List.replicate 40000 0 ++ [167, 0, 0]).get? 40002 = some 0
  rw [List.get?_append_right
      (by rw [List.length_replicate]; norm_num :
        (List.replicate 40000 (0 : Nat)).length ≤ 40002),
    List.length_replicate]
  norm_num

/-- Counterexample to C1 as stated: a `goto` with offset 0 sitting at byte
offset 40000 of a 40003-byte method. The claimed new `pc` is
`pc_of_opcode + offset = 40000`, but the code computes
`(pc as i16 + offset) as usize`, and the `i16` cast truncates 40000 to
-25536, so the actual new `pc` is `2^64 - 25536`. The offset 0 is a legal
branch to the opcode itself, and 40000 is a valid code offset, yet the
program counter does not become 40000. -/
theorem branch_target_counterexample :
    step c1cls c1m c1s
      = StepRes.next
          { locals := [], op_stack := [], op_count := 0, pc := 18446744073709526080 } ∧
    i16_of_bytes 0 0 = 0 ∧
    (18446744073709526080 : Nat) ≠ c1s.pc + 0 := by
  have hpc : c1s.pc = 40000 := rfl
  refine ⟨?_, by decide, by rw [hpc]; norm_num⟩
  unfold step
  rw [hpc, c1m_get_pc, c1m_get_pc1, c1m_get_pc2]
  norm_num [usizeOfI16, wrap16, i16_of_bytes]
  exact ⟨rfl, rfl, rfl, by omega⟩

/-- C1 (amended): for every conditional branch opcode (153..158 and
159..164) and for `goto` (167) at byte offset `pc` with signed 16-bit
offset `off` decoded from its two operand bytes, if the branch is taken
AND the target `pc + off` lies in `[0, 32768)` (so that no `i16`
truncation occurs; the counterexample above forces this bound), the new
program counter is exactly `pc + off`, measured from the opcode itself. -/
theorem branch_target_semantics (cls : ClassFile) (m : Method) :
    (∀ (s s' : VMState) (c b1 b2 : Nat) (v : Int),
      153 ≤ c → c ≤ 158 →
      m.code.code.get? s.pc = some c →
      m.code.code.get? (s.pc + 1) = some b1 →
      m.code.code.get? (s.pc + 2) = some b2 →
      stkRead s.op_stack s.op_count 1 = some v →
      zeroCmpTaken c v = true →
      0 ≤ (s.pc : Int) + i16_of_bytes b1 b2 →
      (s.pc : Int) + i16_of_bytes b1 b2 < 32768 →
      step cls m s = StepRes.next s' →
      (s'.pc : Int) = (s.pc : Int) + i16_of_bytes b1 b2) ∧
    (∀ (s s' : VMState) (c b1 b2 : Nat) (a b : Int),
      159 ≤ c → c ≤ 164 →
      m.code.code.get? s.pc = some c →
      m.code.code.get? (s.pc + 1) = some b1 →
      m.code.code.get? (s.pc + 2) = some b2 →
      stkRead s.op_stack s.op_count 2 = some a →
      stkRead s.op_stack s.op_count 1 = some b →
      icmpTaken c a b = true →
      0 ≤ (s.pc : Int) + i16_of_bytes b1 b2 →
      (s.pc : Int) + i16_of_bytes b1 b2 < 32768 →
      step cls m s = StepRes.next s' →
      (s'.pc : Int) = (s.pc : Int) + i16_of_bytes b1 b2) ∧
    (∀ (s s' : VMState) (b1 b2 : Nat),
      m.code.code.get? s.pc = some 167 →
      m.code.code.get? (s.pc + 1) = some b1 →
      m.code.code.get? (s.pc + 2) = some b2 →
      0 ≤ (s.pc : Int) + i16_of_bytes b1 b2 →
      (s.pc : Int) + i16_of_bytes b1 b2 < 32768 →
      step cls m s = StepRes.next s' →
      (s'.pc : Int) = (s.pc : Int) + i16_of_bytes b1 b2) := by
  refine ⟨?_, ?_, ?_⟩
  · intro s s' c b1 b2 v hc1 hc2 hcode hb1 hb2 hv htaken h0 h1 hstep
    interval_cases c
    · rw [step_eq_ifeq hcode hb1 hb2 hv] at hstep
      cases hstep
      norm_num [zeroCmpTaken] at htaken
      rw [decide_eq_true htaken]
      exact if_branch_pc_taken s b1 b2 1 h0 h1
    · rw [step_eq_ifne hcode hb1 hb2 hv] at hstep
      cases hstep
      norm_num [zeroCmpTaken] at htaken
      rw [decide_eq_true htaken]
      exact if_branch_pc_taken s b1 b2 1 h0 h1
    · rw [step_eq_iflt hcode hb1 hb2 hv] at hstep
      cases hstep
      norm_num [zeroCmpTaken] at htaken
      rw [decide_eq_true htaken]
      exact if_branch_pc_taken s b1 b2 1 h0 h1
    · rw [step_eq_ifge hcode hb1 hb2 hv] at hstep
      cases hstep
      norm_num [zeroCmpTaken] at htaken
      rw [decide_eq_true htaken]
      exact if_branch_pc_taken s b1 b2 1 h0 h1
    · rw [step_eq_ifgt hcode hb1 hb2 hv] at hstep
      cases hstep
      norm_num [zeroCmpTaken] at htaken
      rw [decide_eq_true htaken]
      exact if_branch_pc_taken s b1 b2 1 h0 h1
    · rw [step_eq_ifle hcode hb1 hb2 hv] at hstep
      cases hstep
      norm_num [zeroCmpTaken] at htaken
      rw [decide_eq_true htaken]
      exact if_branch_pc_taken s b1 b2 1 h0 h1
  · intro s s' c b1 b2 a b hc1 hc2 hcode hb1 hb2 ha hb htaken h0 h1 hstep
    interval_cases c
    · rw [step_eq_icmpeq hcode hb1 hb2 hb ha] at hstep
      cases hstep
      norm_num [icmpTaken] at htaken
      rw [decide_eq_true htaken.symm]
      exact if_branch_pc_taken s b1 b2 2 h0 h1
    · rw [step_eq_icmpne hcode hb1 hb2 hb ha] at hstep
      cases hstep
      norm_num [icmpTaken] at htaken
      rw [decide_eq_true (show b ≠ a by omega)]
      exact if_branch_pc_taken s b1 b2 2 h0 h1
    · rw [step_eq_icmplt hcode hb1 hb2 hb ha] at hstep
      cases hstep
      norm_num [icmpTaken] at htaken
      rw [decide_eq_true htaken]
      exact if_branch_pc_taken s b1 b2 2 h0 h1
    · rw [step_eq_icmpge hcode hb1 hb2 hb ha] at hstep
      cases hstep
      norm_num [icmpTaken] at htaken
      rw [decide_eq_true (show b ≤ a by omega)]
      exact if_branch_pc_taken s b1 b2 2 h0 h1
    · rw [step_eq_icmpgt hcode hb1 hb2 hb ha] at hstep
      cases hstep
      norm_num [icmpTaken] at htaken
      rw [decide_eq_true (show b < a by omega)]
      exact if_branch_pc_taken s b1 b2 2 h0 h1
    · rw [step_eq_icmple hcode hb1 hb2 hb ha] at hstep
      cases hstep
      norm_num [icmpTaken] at htaken
      rw [decide_eq_true htaken]
      exact if_branch_pc_taken s b1 b2 2 h0 h1
  · intro s s' b1 b2 hcode hb1 hb2 h0 h1 hstep
    rw [step_eq_goto hcode hb1 hb2] at hstep
    cases hstep
    simpa using goto_chain s.pc (i16_of_bytes b1 b2) h0 h1

def c1wm : Method :=
  { name := "g", descriptor := "()V",
    code := { max_stack := 0, max_locals := 0, code := [167, 0, 5] } }

/-- Witness for the amended C1: a `goto +5` at `pc = 0` lands at 5. -/
theorem branch_target_semantics_witness :
    ((({ locals := [], op_stack := [], op_count := 0, pc := 5 } : VMState).pc : Int)
      = ((({ locals := [], op_stack := [], op_count := 0, pc := 0 } : VMState).pc : Int)
        + i16_of_bytes 0 5)) :=
  (branch_target_semantics c1cls c1wm).2.2
    { locals := [], op_stack := [], op_count := 0, pc := 0 }
    { locals := [], op_stack := [], op_count := 0, pc := 5 } 0 5
    rfl rfl rfl (by decide) (by decide) (by decide)

/-- C10: the full `invokestatic` handling leaves the caller frame intact
apart from its documented effect: the caller locals are unchanged, `pc`
advances by exactly 3, the operand-stack length is unchanged, every stack
entry below the popped parameter slots is unchanged, and `op_count` becomes
`op_count - num_params` (void callee) or `op_count - num_params + 1` (int
callee). The callee itself runs on a fresh frame built by `execute`
(src/src/main.rs:400-422). -/
theorem invokestatic_frame_effect (cls : ClassFile)
    (exec : Method → List Int → Option (Option Int)) (s s' : VMState) (idx : Nat)
    (mth : Method)
    (hfmi : find_method_from_index idx cls = some mth)
    (hd : doInvoke cls exec s idx = some s') :
    s'.locals = s.locals ∧ s'.pc = s.pc + 3 ∧
    s'.op_stack.length = s.op_stack.length ∧
    (∀ j : Nat, j < s.op_count - (mth.descriptor.length - 3) →
      s'.op_stack.get? j = s.op_stack.get? j) ∧
    (s'.op_count = s.op_count - (mth.descriptor.length - 3) ∨
      s'.op_count = s.op_count - (mth.descriptor.length - 3) + 1) := by
  unfold doInvoke at hd
  simp only [hfmi] at hd
  by_cases hdl : mth.descriptor.length < 3
  · rw [if_pos hdl] at hd
    cases hd
  · rw [if_neg hdl] at hd
    cases hp : popLoop s.op_stack (mth.descriptor.length - 3) s.op_count
        (List.replicate mth.code.max_locals 0) with
    | none =>
      simp only [hp] at hd
      cases hd
    | some pr =>
      obtain ⟨own_locals, opc2⟩ := pr
      simp only [hp] at hd
      rcases popLoop_some_inv hp with ⟨hopc2, hnple, _⟩
      cases he : exec mth own_locals with
      | none =>
        simp only [he] at hd
        cases hd
      | some r =>
        simp only [he] at hd
        cases r with
        | none =>
          cases hd
          subst hopc2
          exact ⟨rfl, rfl, rfl, fun j hj => rfl, Or.inl rfl⟩
        | some res =>
          cases hw : stkWrite s.op_stack opc2 res with
          | none =>
            simp only [hw] at hd
            cases hd
          | some st2 =>
            simp only [hw] at hd
            cases hd
            rcases stkWrite_eq_some_iff.mp hw with ⟨hlt, rfl⟩
            subst hopc2
            refine ⟨rfl, rfl, by rw [List.length_set], ?_, Or.inr rfl⟩
            intro j hj
            exact List.get?_set_ne _ _ (by omega)

def w3inc : Method :=
  { name := "inc", descriptor := "(I)I",
    code := { max_stack := 2, max_locals := 1, code := [26, 4, 96, 172] } }

def w3main : Method :=
  { name := "m", descriptor := "()V",
    code := { max_stack := 1, max_locals := 0, code := [184, 0, 1] } }

def w3cls : ClassFile :=
  { constant_pool := [ConstantPool.MethodOrFieldRef 0 2, ConstantPool.NameAndType 3 4,
      ConstantPool.Utf8 "inc", ConstantPool.Utf8 "(I)I"],
    method := [w3inc, w3main] }

def w3s : VMState := { locals := [], op_stack := [41], op_count := 1, pc := 0 }

/-- Witness for C10 at a concrete class: invoking method 1 with a stub
callee execution that returns the int 5 keeps the caller locals, advances
`pc` to 3 and replaces the single popped parameter with the result. -/
theorem invokestatic_frame_effect_witness :
    (({ locals := [], op_stack := [5], op_count := 1, pc := 3 } : VMState).locals
        = w3s.locals) ∧
    (({ locals := [], op_stack := [5], op_count := 1, pc := 3 } : VMState).pc
        = w3s.pc + 3) ∧
    (({ locals := [], op_stack := [5], op_count := 1, pc := 3 } : VMState).op_stack.length
        = w3s.op_stack.length) ∧
    (∀ j : Nat, j < w3s.op_count - (w3inc.descriptor.length - 3) →
      (({ locals := [], op_stack := [5], op_count := 1, pc := 3 } : VMState).op_stack.get? j
        = w3s.op_stack.get? j)) ∧
    ((({ locals := [], op_stack := [5], op_count := 1, pc := 3 } : VMState).op_count
        = w3s.op_count - (w3inc.descriptor.length - 3)) ∨
      (({ locals := [], op_stack := [5], op_count := 1, pc := 3 } : VMState).op_count
        = w3s.op_count - (w3inc.descriptor.length - 3) + 1)) :=
  invokestatic_frame_effect w3cls (fun _ _ => some (some 5))
    w3s { locals := [], op_stack := [5], op_count := 1, pc := 3 } 1 w3inc rfl rfl

/-- C3: `invokestatic` with the 2-byte pool index `256*b1+b2` resolves the
Ref there to a NameAndType, then to the Utf8 pair `(nm, d)`, looks up the
method matching both name and descriptor, pops
`num_params = descriptor.length - 3` values from the caller stack in
reverse order into callee locals 0..num_params-1 (the remaining callee
locals are zero), invokes the callee recursively on that fresh frame, and
pushes the callee result onto the caller stack exactly when the callee
returned an int (src/src/main.rs:400-422,161-172). -/
theorem invokestatic_call_protocol (cls : ClassFile) (m : Method) (s : VMState) (fuel : Nat)
    (b1 b2 ci nti ni di : Nat) (nm d : String) (mth : Method)
    (hpc : s.pc < m.code.code.length)
    (hcode : m.code.code.get? s.pc = some 184)
    (hb1 : m.code.code.get? (s.pc + 1) = some b1)
    (hb2 : m.code.code.get? (s.pc + 2) = some b2)
    (href : get_constant cls.constant_pool (256 * b1 + b2) =
      some (ConstantPool.MethodOrFieldRef ci nti))
    (hnat : get_constant cls.constant_pool nti = some (ConstantPool.NameAndType ni di))
    (hnm : get_constant cls.constant_pool ni = some (ConstantPool.Utf8 nm))
    (hd : get_constant cls.constant_pool di = some (ConstantPool.Utf8 d))
    (hfind : find_method nm d cls.method = some mth)
    (hdlen : 3 ≤ mth.descriptor.length)
    (hnp : mth.descriptor.length - 3 ≤ s.op_count)
    (hopc : s.op_count ≤ s.op_stack.length)
    (hml : mth.descriptor.length - 3 ≤ mth.code.max_locals)
    (hroom : s.op_count - (mth.descriptor.length - 3) < s.op_stack.length) :
    mth.name = nm ∧ mth.descriptor = d ∧
    (∀ i : Nat, i < mth.descriptor.length - 3 →
      ((s.op_stack.drop (s.op_count - (mth.descriptor.length - 3))).take
          (mth.descriptor.length - 3) ++
        List.replicate (mth.code.max_locals - (mth.descriptor.length - 3)) 0).get? i =
        s.op_stack.get? (s.op_count - (mth.descriptor.length - 3) + i)) ∧
    run cls (fuel + 1) m s =
      (match execute cls fuel mth
          ((s.op_stack.drop (s.op_count - (mth.descriptor.length - 3))).take
            (mth.descriptor.length - 3) ++
           List.replicate (mth.code.max_locals - (mth.descriptor.length - 3)) 0) with
      | none => none
      | some (some v) =>
        run cls fuel m { s with
          op_stack := s.op_stack.set (s.op_count - (mth.descriptor.length - 3)) v,
          op_count := s.op_count - (mth.descriptor.length - 3) + 1, pc := s.pc + 3 }
      | some none =>
        run cls fuel m { s with
          op_count := s.op_count - (mth.descriptor.length - 3), pc := s.pc + 3 }) := by
  have hfm := hfind
  unfold find_method at hfm
  have hpred := List.find?_some hfm
  simp only [Bool.and_eq_true, beq_iff_eq] at hpred
  have hfmi : find_method_from_index (256 * b1 + b2) cls = some mth := by
    unfold find_method_from_index get_method_name_and_type
    simp only [href, hnat, hnm, hd, hfind]
  refine ⟨hpred.1, hpred.2, ?_, ?_⟩
  · intro i hi
    exact paramSlice_get s.op_stack (mth.descriptor.length - 3) s.op_count
      mth.code.max_locals i hnp hopc hi
  · simp only [run]
    rw [if_pos hpc]
    simp only [step_eq_invokestatic hcode hb1 hb2]
    unfold doInvoke
    simp only [hfmi]
    rw [if_neg (by omega)]
    simp only [popLoop_replicate_closed s.op_stack (mth.descriptor.length - 3) s.op_count
      mth.code.max_locals hnp hopc hml]
    cases hres : run cls fuel mth (initState mth
        ((s.op_stack.drop (s.op_count - (mth.descriptor.length - 3))).take
          (mth.descriptor.length - 3) ++
         List.replicate (mth.code.max_locals - (mth.descriptor.length - 3)) 0)) with
    | none => simp only [execute, hres]
    | some r =>
      cases r with
      | none => simp only [execute, hres]
      | some v => simp only [execute, hres, stkWrite_of_lt v hroom]

/-- Witness for C3 at a concrete class: `main` calls `inc(41)` through pool
index 1; the caller frame continues with the result pushed. -/
theorem invokestatic_call_protocol_witness :
    run w3cls 10 w3main w3s =
      run w3cls 9 w3main { locals := [], op_stack := [42], op_count := 1, pc := 3 } := by
  have h := (invokestatic_call_protocol w3cls w3main w3s 9 0 1 0 2 3 4 "inc" "(I)I" w3inc
    (by decide) rfl rfl rfl rfl rfl rfl rfl rfl (by decide) (by decide) (by decide)
    (by decide) (by decide)).2.2.2
  rw [h]
  rfl

end Jvm
